import Mathlib

/-!
# Verification of the WhyComment suggestion-positioning core

Shallow embedding of the diff parsing, suggestion relocation, live-edit
tracking, store merging and containing-boundary lookup logic of the
`whycomment-vscode` extension (`src/llm.ts`, `src/extension.ts`,
`src/suggestions.ts`, `src/ContextExtractionService.ts`), together with
theorems settling the specification's claims about them.

Line-oriented data is modelled as `List String`; JavaScript numbers that
hold line indices are modelled as `Int` (they are produced and consumed as
integers); JavaScript's `Map` insertion-order semantics are modelled as
association-list folds.
-/

namespace WhyComment

/-- JavaScript `\s` character class, restricted to the ASCII whitespace
characters that can occur here (input lines never contain `\n` after the
split, but the predicate is kept faithful). -/
def isJsSpace (c : Char) : Bool :=
  c = ' ' || c = '\t' || c = '\n' || c = '\r' || c = '\x0b' || c = '\x0c'

/-- Splitting on the JavaScript regex `/\r?\n/`, as used by
`parseUnifiedDiff` and `addedLinesFromUnifiedDiff` (`diff.split(/\r?\n/)`). -/
def splitLinesAux : List Char → List Char → List (List Char)
  | [], acc => [acc.reverse]
  | '\n' :: rest, acc => acc.reverse :: splitLinesAux rest []
  | '\r' :: '\n' :: rest, acc => acc.reverse :: splitLinesAux rest []
  | c :: rest, acc => splitLinesAux rest (c :: acc)

def splitLines (s : String) : List String :=
  (splitLinesAux s.toList []).map fun cs => String.mk cs

/-- Consume one expected character. -/
def expectChar (c : Char) : List Char → Option (List Char)
  | x :: rest => if x = c then some rest else none
  | [] => none

/-- Consume one or more `\s` characters (greedy, like `\s+`). -/
def munchSpaces1 (cs : List Char) : Option (List Char) :=
  let (sp, rest) := cs.span isJsSpace
  if sp.isEmpty then none else some rest

/-- Numeric value of a digit string, as `parseInt(_, 10)` computes it. -/
def digitsToNat (ds : List Char) : Nat :=
  ds.foldl (fun n c => n * 10 + (c.toNat - 48)) 0

/-- Consume one or more digits (greedy, like `(\d+)`) and return their value. -/
def munchDigits1 (cs : List Char) : Option (Nat × List Char) :=
  let (ds, rest) := cs.span Char.isDigit
  if ds.isEmpty then none else some (digitsToNat ds, rest)

/-- The hunk-header regex `/^@@\s+-(\d+),(\d+)\s+\+(\d+),(\d+)\s+@@/` of
`parseUnifiedDiff` (src/llm.ts) and `addedLinesFromUnifiedDiff`
(src/extension.ts).  Both counts are mandatory in the pattern.  Returns
`(oldStart, oldCount, newStart, newCount)` on a match.  Greedy matching of
`\s+`/`\d+` is deterministic here because each following literal is not in
the repeated class. -/
def matchHunkHeader (s : String) : Option (Nat × Nat × Nat × Nat) := do
  let r0 ← expectChar '@' s.toList
  let r1 ← expectChar '@' r0
  let r2 ← munchSpaces1 r1
  let r3 ← expectChar '-' r2
  let (oldStart, r4) ← munchDigits1 r3
  let r5 ← expectChar ',' r4
  let (oldCount, r6) ← munchDigits1 r5
  let r7 ← munchSpaces1 r6
  let r8 ← expectChar '+' r7
  let (newStart, r9) ← munchDigits1 r8
  let r10 ← expectChar ',' r9
  let (newCount, r11) ← munchDigits1 r10
  let r12 ← munchSpaces1 r11
  let r13 ← expectChar '@' r12
  let _ ← expectChar '@' r13
  pure (oldStart, oldCount, newStart, newCount)

/-- Structure `DiffHunk` of src/llm.ts: the parser stores only the new-file start,
new-file line count and the raw hunk body lines (with leading markers). -/
structure DiffHunk where
  newStart : Nat
  newLines : Nat
  lines : List String
deriving Repr, DecidableEq

/-- The `for` loop of `parseUnifiedDiff`, with `current` as explicit state:
a header opens a new hunk (pushing the previous one), body lines starting
with `+`/`-`/space are captured into the open hunk, anything else is
skipped, and the last open hunk is pushed at the end. -/
def parseLoop : List String → Option DiffHunk → List DiffHunk
  | [], cur => match cur with
    | some h => [h]
    | none => []
  | l :: rest, cur =>
    match matchHunkHeader l with
    | some (_, _, ns, nc) =>
      match cur with
      | some h => h :: parseLoop rest (some ⟨ns, nc, []⟩)
      | none => parseLoop rest (some ⟨ns, nc, []⟩)
    | none =>
      match cur with
      | none => parseLoop rest none
      | some h =>
        match l.toList.head? with
        | some c =>
          if c = '+' || c = '-' || c = ' ' then
            parseLoop rest (some ⟨h.newStart, h.newLines, h.lines ++ [l]⟩)
          else
            parseLoop rest (some h)
        | none => parseLoop rest (some h)

/-- Function `parseUnifiedDiff` (src/llm.ts): split on `/\r?\n/`, then run the
capture loop.  Total by construction. -/
def parseUnifiedDiff (diff : String) : List DiffHunk :=
  parseLoop (splitLines diff) none

/-- Inner loop of `annotateDiffWithNewLines` over one hunk's lines,
carrying the running absolute new-file line number: context advances the
counter, an added line is emitted as `[n] +text` and advances it, a
removed line is ignored. -/
def annotateHunkLines : List String → Nat → List String
  | [], _ => []
  | l :: rest, newLine =>
    match l.toList with
    | ' ' :: _ => annotateHunkLines rest (newLine + 1)
    | '+' :: text =>
      ("[" ++ toString newLine ++ "] +" ++ String.mk text)
        :: annotateHunkLines rest (newLine + 1)
    | '-' :: _ => annotateHunkLines rest newLine
    | _ => annotateHunkLines rest newLine

/-- The entry list built by `annotateDiffWithNewLines` (src/llm.ts) before
joining: one `[absoluteNewLine] +text` string per added line, across all
hunks, each hunk's counter starting at its `newStart`. -/
def annotateDiffLinesList (diff : String) : List String :=
  (parseUnifiedDiff diff).foldl (fun acc h => acc ++ annotateHunkLines h.lines h.newStart) []

/-- Function `annotateDiffWithNewLines` (src/llm.ts): the annotated entries joined
with newlines, the only representation sent to the analyzer. -/
def annotateDiffWithNewLines (diff : String) : String :=
  String.intercalate "\n" (annotateDiffLinesList diff)

/-- JavaScript `String.prototype.trim` (whitespace stripped from both
ends), over the whitespace characters relevant here. -/
def jsTrim (s : String) : String :=
  String.mk (((s.toList.dropWhile isJsSpace).reverse.dropWhile isJsSpace).reverse)

/-- JavaScript `hay.includes(needle)`: `needle` occurs as a contiguous
substring of `hay`. -/
def strIncludes (hay needle : String) : Bool :=
  hay.toList.tails.any fun t => needle.toList.isPrefixOf t

/-- JavaScript `s.startsWith(pre)`. -/
def strStartsWith (s pre : String) : Bool :=
  pre.toList.isPrefixOf s.toList

/-- The anchor marker strip `s.anchor.replace(/^\+|^-|^\s/, '')` of
`resolveSuggestionLocations` (src/extension.ts): a non-global replace, so
at most one leading `+`, `-` or whitespace character is removed. -/
def stripLeadMarker (s : String) : String :=
  match s.toList with
  | c :: rest => if c = '+' || c = '-' || isJsSpace c then String.mk rest else s
  | [] => s

/-- The `Suggestion` record of src/types.ts, restricted to the fields the
positioning logic reads and writes: `id`, the mutable 0-based `line`
(a JavaScript number, modelled as `Int`), the optional `anchor` snippet and
the `applied`/`ignored` lifecycle flags (absent/undefined = `false`). -/
structure Suggestion where
  id : String
  line : Int
  anchor : Option String := none
  applied : Bool := false
  ignored : Bool := false
deriving Repr, DecidableEq

/-- Expression `Math.min(Math.max(0, line), lineCount - 1)`, the clamping fallback of
`resolveSuggestionLocations` and `filterAlreadyExplained`. -/
def clampLine (lineCount : Nat) (line : Int) : Int :=
  min (max 0 line) ((lineCount : Int) - 1)

/-- The candidate indices scan of `resolveSuggestionLocations`
(src/extension.ts): every document line whose trimmed text equals the
needle or which contains the needle as a substring, in increasing order. -/
def candidatesFor (docLines : List String) (needle : String) : List Nat :=
  (List.range docLines.length).filter fun i =>
    jsTrim (docLines.getD i "") = needle || strIncludes (docLines.getD i "") needle

/-- One step of the `candidates.reduce` in `resolveSuggestionLocations`:
keep the incumbent unless the new candidate is strictly closer to the
stored line (`Math.abs(cur - s.line) < Math.abs(best - s.line)`). -/
def closerCandidate (line0 : Int) (best cur : Nat) : Nat :=
  if ((cur : Int) - line0).natAbs < ((best : Int) - line0).natAbs then cur else best

/-- Per-suggestion body of `resolveSuggestionLocations` (src/extension.ts):
with a non-empty anchor, collect candidates and move the suggestion to the
reduce-selected candidate; otherwise (or with no candidate) clamp the
stored line into the document. -/
def resolveOne (docLines : List String) (s : Suggestion) : Suggestion :=
  match s.anchor with
  | some a =>
    if jsTrim a = "" then
      { s with line := clampLine docLines.length s.line }
    else
      let needle := jsTrim (stripLeadMarker a)
      match candidatesFor docLines needle with
      | [] => { s with line := clampLine docLines.length s.line }
      | c0 :: _ =>
        { s with line := (((candidatesFor docLines needle).foldl (closerCandidate s.line) c0 : Nat) : Int) }
  | none => { s with line := clampLine docLines.length s.line }

/-- Function `resolveSuggestionLocations` (src/extension.ts) over a snapshot of the
document's lines. -/
def resolveSuggestionLocations (docLines : List String) (items : List Suggestion) : List Suggestion :=
  items.map (resolveOne docLines)

/-- The walk of `addedLinesFromUnifiedDiff` (src/extension.ts): track the
1-based new-file counter from each recognized hunk header, record each `+`
line as a 0-based number (`newLine - 1`), leave hunk mode on an
unrecognized `@` line.  The JS `Set` is modelled as the list of recorded
numbers; only membership is ever consumed. -/
def addedLinesWalk : List String → Bool → Int → List Int → List Int
  | [], _, _, acc => acc
  | l :: rest, inHunk, newLine, acc =>
    match matchHunkHeader l with
    | some (_, _, ns, _) => addedLinesWalk rest true (ns : Int) acc
    | none =>
      if inHunk = false then addedLinesWalk rest inHunk newLine acc
      else
        match l.toList.head? with
        | none => addedLinesWalk rest inHunk newLine acc
        | some t =>
          if t = ' ' then addedLinesWalk rest inHunk (newLine + 1) acc
          else if t = '+' then addedLinesWalk rest inHunk (newLine + 1) (acc ++ [newLine - 1])
          else if t = '-' then addedLinesWalk rest inHunk newLine acc
          else if t = '@' then addedLinesWalk rest false newLine acc
          else addedLinesWalk rest inHunk newLine acc

/-- Function `addedLinesFromUnifiedDiff` (src/extension.ts). -/
def addedLinesFromUnifiedDiff (diff : String) : List Int :=
  addedLinesWalk (splitLines diff) false 0 []

/-- Function `filterToAddedLines` (src/extension.ts): keep only suggestions whose
line is among the diff's 0-based added-line numbers. -/
def filterToAddedLines (diff : String) (items : List Suggestion) : List Suggestion :=
  items.filter fun s => (addedLinesFromUnifiedDiff diff).contains s.line

/-- Predicate `hasAnyComment` inside `filterAlreadyExplained`: the line contains the
language's line-comment token anywhere (`indexOf !== -1`). -/
def hasAnyComment (token lineText : String) : Bool :=
  strIncludes lineText token

/-- The `d = 0..3` scan of `filterAlreadyExplained` (src/extension.ts),
with the remaining offsets as an explicit list: stop at the top of the
file, succeed on a comment token, stop early at a non-blank non-comment
barrier line strictly above the target. -/
def explainedLoop (token : String) (docLines : List String) (line : Int) : List Nat → Bool
  | [] => false
  | d :: ds =>
    let i := line - (d : Int)
    if i < 0 then false
    else
      let text := docLines.getD i.toNat ""
      if hasAnyComment token text then true
      else if 0 < d ∧ (jsTrim text) ≠ "" ∧ strStartsWith (jsTrim text) token = false then false
      else explainedLoop token docLines line ds

/-- Function `filterAlreadyExplained` (src/extension.ts): drop each suggestion whose
clamped target line, or up to three lines above it (with the barrier rule),
already carries a comment. -/
def filterAlreadyExplained (token : String) (docLines : List String)
    (items : List Suggestion) : List Suggestion :=
  items.filter fun s =>
    explainedLoop token docLines (clampLine docLines.length s.line) [0, 1, 2, 3] = false

/-- One `map.set(s.id, s)` on a JavaScript `Map` represented as its
insertion-ordered entry list: an existing key is overwritten in place, a
fresh key is appended. -/
def mapInsert (m : List Suggestion) (s : Suggestion) : List Suggestion :=
  if ∃ t ∈ m, t.id = s.id then
    m.map fun t => if t.id = s.id then s else t
  else m ++ [s]

/-- Function `appendAndDedupe` (src/extension.ts): build a `Map` keyed by `id` from
`existing` then `incoming` (last write wins, insertion order kept) and
return its values. -/
def appendAndDedupe (existing incoming : List Suggestion) : List Suggestion :=
  incoming.foldl mapInsert (existing.foldl mapInsert [])

/-- The lines of currently active (not applied, not ignored) suggestions,
as collected by `analyzeUri` (src/extension.ts) before merging. -/
def activeLines (existing : List Suggestion) : List Int :=
  (existing.filter fun x => !x.applied && !x.ignored).map (·.line)

/-- The merge step of `analyzeUri` (src/extension.ts): drop incoming
suggestions landing on a line that already carries an active suggestion,
then merge by id. -/
def mergeStepAnalyzeUri (existing incoming : List Suggestion) : List Suggestion :=
  appendAndDedupe existing (incoming.filter fun s => !(activeLines existing).contains s.line)

/-- The post-analyzer pipeline of `analyzeUri` (src/extension.ts): resolve
against the live document, drop already-explained lines, keep only the
diff's added lines. -/
def postLLMPipeline (docLines : List String) (token : String) (diff : String)
    (items : List Suggestion) : List Suggestion :=
  filterToAddedLines diff (filterAlreadyExplained token docLines (resolveSuggestionLocations docLines items))

/-- Function `analyzeWithLLM` (src/llm.ts) with the network call's outcome made
explicit (`callResult`) and the response parser abstracted (`parseResp`):
no key or an empty annotated diff short-circuits to `[]`, and the
`try/catch` turns any call failure into `[]` after reporting a warning. -/
def analyzeWithLLM (parseResp : String → List Suggestion) (apiKey : String)
    (diff : String) (callResult : Except String String) : List Suggestion :=
  if apiKey = "" then []
  else if jsTrim (annotateDiffWithNewLines diff) = "" then []
  else
    match callResult with
    | .error _ => []
    | .ok completion => parseResp completion

/-- One entry of `e.contentChanges` as consumed by `onDocChanged`
(src/extension.ts): the changed range's 0-based start and end lines and
the number of newline characters in the inserted text. -/
structure DocChange where
  startLine : Nat
  endLine : Nat
  insertedLines : Nat
deriving Repr, DecidableEq

/-- Quantity `delta = added - removed` of `onDocChanged`. -/
def changeDelta (c : DocChange) : Int :=
  (c.insertedLines : Int) - ((c.endLine : Int) - (c.startLine : Int))

/-- Per-suggestion effect of one content change in `onDocChanged`
(src/extension.ts): a `delta = 0` change is skipped entirely
(`if (delta === 0) continue`), applied/ignored suggestions are skipped,
lines strictly after the range shift by `delta`, lines inside the range
snap to `max(0, start + added)`. -/
def shiftSuggestion (c : DocChange) (s : Suggestion) : Suggestion :=
  if changeDelta c = 0 then s
  else if s.applied || s.ignored then s
  else if s.line > (c.endLine : Int) then { s with line := s.line + changeDelta c }
  else if (c.startLine : Int) ≤ s.line ∧ s.line ≤ (c.endLine : Int) then
    { s with line := max 0 ((c.startLine : Int) + (c.insertedLines : Int)) }
  else s

/-- Function `onDocChanged` applied to one content change: every suggestion of the
file is adjusted independently. -/
def applyChange (c : DocChange) (arr : List Suggestion) : List Suggestion :=
  arr.map (shiftSuggestion c)

/-- Function `onDocChanged` (src/extension.ts) over all content changes of one
mutation event, in order. -/
def onDocChanged (changes : List DocChange) (arr : List Suggestion) : List Suggestion :=
  changes.foldl (fun a c => applyChange c a) arr

/-- Method `SuggestionStore.update` (src/suggestions.ts): replace the first
record with the same id in place, else append. -/
def storeUpdate (items : List Suggestion) (s : Suggestion) : List Suggestion :=
  match items.findIdx? (fun t => t.id == s.id) with
  | some idx => items.set idx s
  | none => items ++ [s]

/-- Values of `FunctionInfo.type` from src/types.ts (`'class'` is spelled
`cls`). -/
inductive FuncKind
  | function
  | method
  | cls
  | interface
deriving Repr, DecidableEq

/-- Structure `FunctionInfo` of src/types.ts as consumed by the containing-boundary
lookups: name, kind and inclusive 0-based start/end lines. -/
structure FunctionInfo where
  name : String
  type : FuncKind
  startLine : Nat
  endLine : Nat
deriving Repr, DecidableEq

/-- Method `ContextExtractionService.findContainingFunction`
(src/ContextExtractionService.ts).  The JavaScript condition
`func.type === 'function' || func.type === 'method' && lineNumber >=
func.startLine && lineNumber <= func.endLine` parses, by operator
precedence, as `function-kind ∨ (method-kind ∧ covering)`, and
`Array.prototype.find` returns the first match. -/
def findContainingFunction (functions : List FunctionInfo) (lineNumber : Nat) :
    Option FunctionInfo :=
  functions.find? fun f =>
    decide (f.type = FuncKind.function) ||
      (decide (f.type = FuncKind.method) && decide (f.startLine ≤ lineNumber)
        && decide (lineNumber ≤ f.endLine))

/-- Method `ContextExtractionService.findContainingClass`
(src/ContextExtractionService.ts): the first class-kind span covering the
line, in list order. -/
def findContainingClass (functions : List FunctionInfo) (lineNumber : Nat) :
    Option FunctionInfo :=
  functions.find? fun f =>
    decide (f.type = FuncKind.cls) && decide (f.startLine ≤ lineNumber)
      && decide (lineNumber ≤ f.endLine)

/-! ## General helper lemmas -/

/-- Soundness of `List.find?` with position: a hit satisfies the predicate
and everything before it fails it. -/
theorem find?_first {α : Type} (p : α → Bool) :
    ∀ (l : List α) (a : α), l.find? p = some a →
      p a = true ∧ ∃ l₁ l₂, l = l₁ ++ a :: l₂ ∧ ∀ x ∈ l₁, p x = false := by
  intro l
  induction l with
  | nil => intro a h; simp at h
  | cons x rest ih =>
    intro a h
    by_cases hx : p x = true
    · rw [List.find?_cons_of_pos _ hx] at h
      obtain rfl : x = a := by injection h
      exact ⟨hx, [], rest, rfl, by simp⟩
    · rw [List.find?_cons_of_neg _ hx] at h
      obtain ⟨hpa, l₁, l₂, hsplit, hfail⟩ := ih a h
      refine ⟨hpa, x :: l₁, l₂, by rw [hsplit]; rfl, ?_⟩
      intro y hy
      rcases List.mem_cons.mp hy with rfl | hy
      · exact Bool.eq_false_iff.mpr fun hc => hx hc
      · exact hfail y hy

/-- The reduce step keeps a value at least as close as both inputs. -/
theorem closerCandidate_le (line0 : Int) (a b : Nat) :
    (((closerCandidate line0 a b : Nat) : Int) - line0).natAbs ≤ ((a : Int) - line0).natAbs ∧
      (((closerCandidate line0 a b : Nat) : Int) - line0).natAbs ≤ ((b : Int) - line0).natAbs := by
  unfold closerCandidate
  split <;> constructor <;> omega

/-- The reduce over candidates lands on one of them (or the seed). -/
theorem closer_foldl_mem (line0 : Int) :
    ∀ (l : List Nat) (a : Nat), l.foldl (closerCandidate line0) a ∈ a :: l := by
  intro l
  induction l with
  | nil => intro a; simp
  | cons b t ih =>
    intro a
    rw [List.foldl_cons]
    have h := ih (closerCandidate line0 a b)
    have hab : closerCandidate line0 a b = a ∨ closerCandidate line0 a b = b := by
      unfold closerCandidate; split <;> simp
    rcases List.mem_cons.mp h with hc | ht
    · rcases hab with ha | hb
      · rw [hc, ha]; exact List.mem_cons_self a (b :: t)
      · rw [hc, hb]; simp
    · simp [List.mem_cons, ht]

/-- The reduce over candidates minimizes the distance to the stored line
among the seed and all candidates. -/
theorem closer_foldl_min (line0 : Int) :
    ∀ (l : List Nat) (a : Nat), ∀ x ∈ a :: l,
      (((l.foldl (closerCandidate line0) a : Nat) : Int) - line0).natAbs ≤
        ((x : Int) - line0).natAbs := by
  intro l
  induction l with
  | nil =>
    intro a x hx
    rcases List.mem_cons.mp hx with rfl | hx
    · simp
    · simp at hx
  | cons b t ih =>
    intro a x hx
    rw [List.foldl_cons]
    have hle := closerCandidate_le line0 a b
    rcases List.mem_cons.mp hx with heq | hx
    · subst heq
      exact le_trans (ih (closerCandidate line0 x b) _ (List.mem_cons_self _ _)) hle.1
    · rcases List.mem_cons.mp hx with heq | hx
      · subst heq
        exact le_trans (ih (closerCandidate line0 a x) _ (List.mem_cons_self _ _)) hle.2
      · exact ih (closerCandidate line0 a b) x (List.mem_cons_of_mem _ hx)

/-- On a strictly increasing candidate list the reduce picks the earliest
minimizer: any tie is at least as large. -/
theorem closer_foldl_earliest (line0 : Int) :
    ∀ (l : List Nat) (a : Nat), (a :: l).Pairwise (· < ·) →
      ∀ x ∈ a :: l,
        ((x : Int) - line0).natAbs =
          (((l.foldl (closerCandidate line0) a : Nat) : Int) - line0).natAbs →
        l.foldl (closerCandidate line0) a ≤ x := by
  intro l
  induction l with
  | nil =>
    intro a _ x hx _
    rcases List.mem_cons.mp hx with rfl | hx
    · simp
    · simp at hx
  | cons b t ih =>
    intro a hpw x hx heq
    rw [List.foldl_cons] at heq ⊢
    obtain ⟨h1, h2⟩ := List.pairwise_cons.mp hpw
    obtain ⟨h2a, h2b⟩ := List.pairwise_cons.mp h2
    have hab : a < b := h1 b (List.mem_cons_self _ _)
    by_cases hc : ((b : Int) - line0).natAbs < ((a : Int) - line0).natAbs
    · -- the step keeps `b`
      have hstep : closerCandidate line0 a b = b := by unfold closerCandidate; simp [hc]
      rw [hstep] at heq ⊢
      have hpw' : (b :: t).Pairwise (· < ·) := h2
      rcases List.mem_cons.mp hx with heq' | hx
      · -- x = a : impossible tie, the result is strictly closer than a
        subst heq'
        have hmin := closer_foldl_min line0 t b b (List.mem_cons_self _ _)
        omega
      · exact ih b hpw' x hx heq
    · -- the step keeps `a`
      have hstep : closerCandidate line0 a b = a := by unfold closerCandidate; simp [hc]
      rw [hstep] at heq ⊢
      have hpw' : (a :: t).Pairwise (· < ·) := by
        rw [List.pairwise_cons]
        exact ⟨fun y hy => h1 y (List.mem_cons_of_mem b hy), h2b⟩
      rcases List.mem_cons.mp hx with heq' | hx
      · subst heq'
        exact ih x hpw' x (List.mem_cons_self _ _) heq
      · rcases List.mem_cons.mp hx with heq' | hx
        · -- x = b, tied with the result: the result is ≤ a < b
          subst heq'
          have hra := closer_foldl_min line0 t a a (List.mem_cons_self _ _)
          have heqa : ((a : Int) - line0).natAbs =
              (((t.foldl (closerCandidate line0) a : Nat) : Int) - line0).natAbs := by omega
          have := ih a hpw' a (List.mem_cons_self _ _) heqa
          omega
        · exact ih a hpw' x (List.mem_cons_of_mem a hx) heq

/-- The candidate list is strictly increasing (it filters `List.range`). -/
theorem candidatesFor_pairwise (docLines : List String) (needle : String) :
    (candidatesFor docLines needle).Pairwise (· < ·) :=
  List.Pairwise.sublist (List.filter_sublist _) (List.pairwise_lt_range _)

/-- The capture loop skips everything while no header has been seen. -/
theorem parseLoop_none_of_no_header :
    ∀ (lines : List String), (∀ l ∈ lines, matchHunkHeader l = none) →
      parseLoop lines none = [] := by
  intro lines
  induction lines with
  | nil => intro _; rfl
  | cons l rest ih =>
    intro h
    have hl := h l (List.mem_cons_self l rest)
    simp only [parseLoop, hl]
    exact ih fun x hx => h x (List.mem_cons_of_mem l hx)

/-- A hunk body line: starts with `+`, `-` or a space. -/
def isBodyMarker (l : String) : Bool :=
  match l.toList.head? with
  | some c => c = '+' || c = '-' || c = ' '
  | none => false

/-- With a hunk open, body lines that start with `+`/`-`/space and are not
headers are all appended to it. -/
theorem parseLoop_captures_body :
    ∀ (body : List String) (h : DiffHunk),
      (∀ l ∈ body, matchHunkHeader l = none ∧ isBodyMarker l = true) →
      parseLoop body (some h) = [⟨h.newStart, h.newLines, h.lines ++ body⟩] := by
  intro body
  induction body with
  | nil => intro h _; simp [parseLoop]
  | cons l rest ih =>
    intro hk hcond
    obtain ⟨hm, hmark⟩ := hcond l (List.mem_cons_self l rest)
    unfold isBodyMarker at hmark
    cases hh : l.toList.head? with
    | none => rw [hh] at hmark; simp at hmark
    | some c =>
      rw [hh] at hmark
      have hcp : (c = '+' ∨ c = '-') ∨ c = ' ' := by simpa using hmark
      have hh' : l.data.head? = some c := hh
      have hstep : parseLoop (l :: rest) (some hk) =
          parseLoop rest (some ⟨hk.newStart, hk.newLines, hk.lines ++ [l]⟩) := by
        rcases hcp with (rfl | rfl) | rfl <;> simp [parseLoop, hm, hh']
      rw [hstep, ih ⟨hk.newStart, hk.newLines, hk.lines ++ [l]⟩
        (fun x hx => hcond x (List.mem_cons_of_mem l hx))]
      simp

/-- Value of `changeDelta` on a pure insertion of `k` lines at line `L`. -/
theorem changeDelta_pure_insertion (L k : Nat) : changeDelta ⟨L, L, k⟩ = (k : Int) := by
  simp [changeDelta]

/-! ## Claim theorems -/

/-- C6: the unified-diff parser is total (defined by structural recursion
over the split lines, for arbitrary input strings), and on any input in
which no line matches the hunk-header pattern it returns zero hunks. -/
theorem c6_no_header_zero_hunks (diff : String)
    (h : ∀ l ∈ splitLines diff, matchHunkHeader l = none) :
    parseUnifiedDiff diff = [] :=
  parseLoop_none_of_no_header (splitLines diff) h

/-- Witness for C6 at a concrete malformed input. -/
theorem c6_no_header_zero_hunks_witness :
    (∀ l ∈ splitLines "hello world\nnot a diff @@ nope", matchHunkHeader l = none) ∧
      parseUnifiedDiff "hello world\nnot a diff @@ nope" = [] :=
  ⟨by decide, c6_no_header_zero_hunks _ (by decide)⟩

/-- C7: on the diff `@@ -1,2 +1,4 @@` followed by two context lines and
two added lines, the annotator emits exactly two entries, carrying the
absolute 1-based new-file line numbers 3 and 4 paired with the texts of
the two added lines. -/
theorem c7_annotator_two_added_lines :
    annotateDiffLinesList "@@ -1,2 +1,4 @@\n ctx1\n ctx2\n+added1\n+added2" =
        ["[3] +added1", "[4] +added2"] ∧
      annotateDiffWithNewLines "@@ -1,2 +1,4 @@\n ctx1\n ctx2\n+added1\n+added2" =
        "[3] +added1\n[4] +added2" := by
  constructor <;> decide

/-- C2 counterexample: a hunk header with an omitted count (`@@ -1 +1 @@`,
`@@ -1,2 +1 @@` or `@@ -1 +1,2 @@`) is not recognized by the parser — the
hunk and its added line are discarded entirely instead of being captured
with the missing count defaulting to 1. -/
theorem c2_omitted_count_counterexample :
    parseUnifiedDiff "@@ -1 +1 @@\n+x" = [] ∧
      parseUnifiedDiff "@@ -1,2 +1 @@\n+x" = [] ∧
      parseUnifiedDiff "@@ -1 +1,2 @@\n+x" = [] := by
  refine ⟨?_, ?_, ?_⟩ <;> decide

/-- C2 amended: the parser recognizes a hunk header only in the full form
`@@ -a,c +b,d @@` with both counts present (omitted-count forms are
discarded, see the counterexample); a recognized header starts a hunk
whose following `+`/`-`/space lines are captured rather than discarded. -/
theorem c2_amended_full_header_captured
    (diff : String) (hl : String) (body : List String) (os oc ns nc : Nat)
    (hsplit : splitLines diff = hl :: body)
    (hh : matchHunkHeader hl = some (os, oc, ns, nc))
    (hb : ∀ l ∈ body, matchHunkHeader l = none ∧ isBodyMarker l = true) :
    parseUnifiedDiff diff = [⟨ns, nc, body⟩] := by
  unfold parseUnifiedDiff
  rw [hsplit]
  simp only [parseLoop, hh]
  have hcap := parseLoop_captures_body body ⟨ns, nc, []⟩ hb
  simpa using hcap

/-- Witness for C2's amended form on a concrete full-form hunk. -/
theorem c2_amended_full_header_captured_witness :
    matchHunkHeader "@@ -1,2 +3,4 @@" = some (1, 2, 3, 4) ∧
      parseUnifiedDiff "@@ -1,2 +3,4 @@\n+x\n y" = [⟨3, 4, ["+x", " y"]⟩] :=
  ⟨by decide,
    c2_amended_full_header_captured "@@ -1,2 +3,4 @@\n+x\n y" "@@ -1,2 +3,4 @@"
      ["+x", " y"] 1 2 3 4 (by decide) (by decide) (by decide)⟩

/-- C3 counterexample: for the mutation event with changed range lines
1–2 and one inserted line (`delta = 0`), the active suggestion on line 1 —
inside the changed range — is left at line 1 instead of being snapped to
`max(0, changedRangeStartLine + insertedLineCount) = 2` as the claim
demands for every such event. -/
theorem c3_delta_zero_counterexample :
    (shiftSuggestion ⟨1, 2, 1⟩ { id := "s", line := 1 }).line = 1 ∧
      (shiftSuggestion ⟨1, 2, 1⟩ { id := "s", line := 1 }).line ≠
        max 0 ((1 : Int) + 1) := by
  constructor <;> decide

/-- C3 amended: the live-edit tracker snaps an active suggestion inside
the changed range (inclusive) to `max(0, changedRangeStartLine +
insertedLineCount)` only when `delta = insertedLineCount -
(changedRangeEndLine - changedRangeStartLine)` is non-zero; a `delta = 0`
mutation leaves every suggestion unchanged. -/
theorem c3_amended_snap_inside_range
    (c : DocChange) (s : Suggestion)
    (hd : changeDelta c ≠ 0) (ha : s.applied = false) (hi : s.ignored = false)
    (h1 : (c.startLine : Int) ≤ s.line) (h2 : s.line ≤ (c.endLine : Int)) :
    (shiftSuggestion c s).line =
      max 0 ((c.startLine : Int) + (c.insertedLines : Int)) := by
  unfold shiftSuggestion
  rw [if_neg hd, ha, hi]
  simp only [Bool.or_false, Bool.false_eq_true, if_false]
  rw [if_neg (not_lt.mpr h2), if_pos ⟨h1, h2⟩]

/-- Witness for C3's amended form. -/
theorem c3_amended_snap_inside_range_witness :
    changeDelta ⟨2, 2, 3⟩ ≠ 0 ∧
      (shiftSuggestion ⟨2, 2, 3⟩ { id := "s", line := 2 }).line =
        max 0 ((2 : Int) + 3) :=
  ⟨by decide,
    c3_amended_snap_inside_range ⟨2, 2, 3⟩ { id := "s", line := 2 }
      (by decide) rfl rfl (by decide) (by decide)⟩

/-- C4: for a pure insertion of `k ≥ 1` lines at line `L` (changed range
start = end = `L`, `k` inserted lines), the live-edit tracker shifts every
active suggestion with line strictly after `L` by exactly `+k` and leaves
every suggestion with line before `L` unchanged. -/
theorem c4_pure_insertion_shift (L k : Nat) (s : Suggestion) (hk : 1 ≤ k) :
    (s.applied = false → s.ignored = false → (L : Int) < s.line →
      (shiftSuggestion ⟨L, L, k⟩ s).line = s.line + (k : Int)) ∧
    (s.line < (L : Int) → shiftSuggestion ⟨L, L, k⟩ s = s) := by
  have hd : changeDelta ⟨L, L, k⟩ ≠ 0 := by
    rw [changeDelta_pure_insertion]
    omega
  have hend : (((⟨L, L, k⟩ : DocChange).endLine : Nat) : Int) = (L : Int) := rfl
  have hstart : (((⟨L, L, k⟩ : DocChange).startLine : Nat) : Int) = (L : Int) := rfl
  constructor
  · intro ha hi hline
    unfold shiftSuggestion
    rw [if_neg hd, ha, hi]
    simp only [Bool.or_false, Bool.false_eq_true, if_false]
    rw [if_pos (by rw [hend]; exact hline), changeDelta_pure_insertion]
  · intro hline
    unfold shiftSuggestion
    rw [if_neg hd]
    by_cases hai : (s.applied || s.ignored) = true
    · rw [if_pos hai]
    · rw [if_neg hai, if_neg (by rw [hend]; omega),
        if_neg (by rw [hstart, hend]; omega)]

/-- Witness for C4 at `L = 3`, `k = 2`. -/
theorem c4_pure_insertion_shift_witness :
    (1 : Nat) ≤ 2 ∧
      (shiftSuggestion ⟨3, 3, 2⟩ { id := "s", line := 5 }).line = 5 + (2 : Int) ∧
      shiftSuggestion ⟨3, 3, 2⟩ { id := "t", line := 2 } = { id := "t", line := 2 } :=
  ⟨by decide,
    (c4_pure_insertion_shift 3 2 { id := "s", line := 5 } (by decide)).1 rfl rfl (by decide),
    (c4_pure_insertion_shift 3 2 { id := "t", line := 2 } (by decide)).2 (by decide)⟩

/-- C1 counterexample: the containing-boundary lookup is not
narrowest-span.  With spans `outer` (class, lines 0–10) and `inner`
(class, lines 2–3), the class lookup at line 2 returns the wider first
span `outer` although `inner` also covers line 2 and is strictly
narrower.  With spans `f` (function, lines 0–0) and `m` (method, lines
5–9), the function lookup at line 7 returns `f`, which does not even
cover line 7 (so a fortiori is not a narrowest covering span). -/
theorem c1_narrowest_span_counterexample :
    findContainingClass
        [⟨"outer", FuncKind.cls, 0, 10⟩, ⟨"inner", FuncKind.cls, 2, 3⟩] 2 =
      some ⟨"outer", FuncKind.cls, 0, 10⟩ ∧
    ((2 : Nat) ≤ 2 ∧ (2 : Nat) ≤ 3 ∧ (3 : Nat) - 2 < 10 - 0) ∧
    findContainingFunction
        [⟨"f", FuncKind.function, 0, 0⟩, ⟨"m", FuncKind.method, 5, 9⟩] 7 =
      some ⟨"f", FuncKind.function, 0, 0⟩ ∧
    ¬ ((0 : Nat) ≤ 7 ∧ (7 : Nat) ≤ 0) := by
  refine ⟨?_, ?_, ?_, ?_⟩ <;> decide

/-- C1 amended: both lookups are first-match in list order, not
narrowest-span.  `findContainingClass` returns the first span of kind
class that covers the line; `findContainingFunction` returns the first
span that either has kind function (regardless of coverage — the kind
test short-circuits the range test by JavaScript operator precedence) or
has kind method and covers the line. -/
theorem c1_amended_first_match (funcs : List FunctionInfo) (line : Nat) (f : FunctionInfo) :
    (findContainingClass funcs line = some f →
      f.type = FuncKind.cls ∧ f.startLine ≤ line ∧ line ≤ f.endLine ∧
      ∃ l₁ l₂, funcs = l₁ ++ f :: l₂ ∧
        ∀ g ∈ l₁, ¬(g.type = FuncKind.cls ∧ g.startLine ≤ line ∧ line ≤ g.endLine)) ∧
    (findContainingFunction funcs line = some f →
      (f.type = FuncKind.function ∨
        (f.type = FuncKind.method ∧ f.startLine ≤ line ∧ line ≤ f.endLine)) ∧
      ∃ l₁ l₂, funcs = l₁ ++ f :: l₂ ∧
        ∀ g ∈ l₁, ¬(g.type = FuncKind.function ∨
          (g.type = FuncKind.method ∧ g.startLine ≤ line ∧ line ≤ g.endLine))) := by
  constructor
  · intro h
    obtain ⟨hp, l₁, l₂, hsplit, hfail⟩ := find?_first _ funcs f h
    simp only [Bool.and_eq_true, decide_eq_true_eq] at hp
    refine ⟨hp.1.1, hp.1.2, hp.2, l₁, l₂, hsplit, ?_⟩
    intro g hg hcon
    have hf := hfail g hg
    rw [Bool.eq_false_iff] at hf
    exact hf (by
      simp only [Bool.and_eq_true, decide_eq_true_eq]
      exact ⟨⟨hcon.1, hcon.2.1⟩, hcon.2.2⟩)
  · intro h
    obtain ⟨hp, l₁, l₂, hsplit, hfail⟩ := find?_first _ funcs f h
    simp only [Bool.or_eq_true, Bool.and_eq_true, decide_eq_true_eq] at hp
    refine ⟨?_, l₁, l₂, hsplit, ?_⟩
    · rcases hp with h1 | h2
      · exact Or.inl h1
      · exact Or.inr ⟨h2.1.1, h2.1.2, h2.2⟩
    · intro g hg hcon
      have hf := hfail g hg
      rw [Bool.eq_false_iff] at hf
      refine hf (by
        simp only [Bool.or_eq_true, Bool.and_eq_true, decide_eq_true_eq]
        rcases hcon with h1 | h2
        · exact Or.inl h1
        · exact Or.inr ⟨⟨h2.1, h2.2.1⟩, h2.2.2⟩)

/-- Witness for C1's amended form on concrete lookups. -/
theorem c1_amended_first_match_witness :
    ((⟨"k", FuncKind.cls, 0, 5⟩ : FunctionInfo).type = FuncKind.cls ∧
      (⟨"k", FuncKind.cls, 0, 5⟩ : FunctionInfo).startLine ≤ 3 ∧
      3 ≤ (⟨"k", FuncKind.cls, 0, 5⟩ : FunctionInfo).endLine ∧
      ∃ l₁ l₂, [(⟨"k", FuncKind.cls, 0, 5⟩ : FunctionInfo)] = l₁ ++ ⟨"k", FuncKind.cls, 0, 5⟩ :: l₂ ∧
        ∀ g ∈ l₁, ¬(g.type = FuncKind.cls ∧ g.startLine ≤ 3 ∧ 3 ≤ g.endLine)) ∧
    (((⟨"g", FuncKind.function, 1, 2⟩ : FunctionInfo).type = FuncKind.function ∨
        ((⟨"g", FuncKind.function, 1, 2⟩ : FunctionInfo).type = FuncKind.method ∧
          (⟨"g", FuncKind.function, 1, 2⟩ : FunctionInfo).startLine ≤ 7 ∧
          7 ≤ (⟨"g", FuncKind.function, 1, 2⟩ : FunctionInfo).endLine)) ∧
      ∃ l₁ l₂, [(⟨"g", FuncKind.function, 1, 2⟩ : FunctionInfo)] =
          l₁ ++ ⟨"g", FuncKind.function, 1, 2⟩ :: l₂ ∧
        ∀ g ∈ l₁, ¬(g.type = FuncKind.function ∨
          (g.type = FuncKind.method ∧ g.startLine ≤ 7 ∧ 7 ≤ g.endLine))) :=
  ⟨(c1_amended_first_match [⟨"k", FuncKind.cls, 0, 5⟩] 3 ⟨"k", FuncKind.cls, 0, 5⟩).1
      (by decide),
    (c1_amended_first_match [⟨"g", FuncKind.function, 1, 2⟩] 7
      ⟨"g", FuncKind.function, 1, 2⟩).2 (by decide)⟩

/-- Membership after one `Map`-style insert: every element is an original
or the inserted record. -/
theorem mapInsert_mem (m : List Suggestion) (s x : Suggestion) (hx : x ∈ mapInsert m s) :
    x ∈ m ∨ x = s := by
  unfold mapInsert at hx
  split at hx
  · obtain ⟨t, ht, hmap⟩ := List.mem_map.mp hx
    by_cases h : t.id = s.id
    · right; rw [← hmap]; simp [h]
    · left; rw [← hmap]; simpa [h] using ht
  · rcases List.mem_append.mp hx with h | h
    · left; exact h
    · right; simpa using h

/-- Membership after the insert fold: every element is from the
accumulator or the inserted list. -/
theorem foldl_mapInsert_mem :
    ∀ (l acc : List Suggestion) (x : Suggestion),
      x ∈ l.foldl mapInsert acc → x ∈ acc ∨ x ∈ l := by
  intro l
  induction l with
  | nil => intro acc x hx; left; simpa using hx
  | cons s rest ih =>
    intro acc x hx
    rw [List.foldl_cons] at hx
    rcases ih (mapInsert acc s) x hx with h | h
    · rcases mapInsert_mem acc s x h with h' | h'
      · left; exact h'
      · right; rw [h']; exact List.mem_cons_self _ _
    · right; exact List.mem_cons_of_mem _ h

/-- C10: every suggestion present after the merge step of a full-file
analysis pass either was already stored, or is an incoming suggestion
whose line differs from the line of every existing active suggestion —
incoming suggestions landing on an actively-occupied line are discarded
before the merge-by-id, even with a fresh id. -/
theorem c10_merge_discards_occupied_lines (existing incoming : List Suggestion)
    (s : Suggestion) (hs : s ∈ mergeStepAnalyzeUri existing incoming) :
    s ∈ existing ∨ (s ∈ incoming ∧ s.line ∉ activeLines existing) := by
  unfold mergeStepAnalyzeUri appendAndDedupe at hs
  rcases foldl_mapInsert_mem _ _ s hs with h | h
  · rcases foldl_mapInsert_mem _ _ s h with h' | h'
    · simp at h'
    · left; exact h'
  · right
    have hm := List.mem_filter.mp h
    refine ⟨hm.1, ?_⟩
    have hb := hm.2
    simpa using hb

/-- Insertion fold over fresh, duplicate-free records is plain append. -/
theorem foldl_mapInsert_append :
    ∀ (l acc : List Suggestion),
      (∀ s ∈ l, ∀ t ∈ acc, t.id ≠ s.id) → (l.map Suggestion.id).Nodup →
      l.foldl mapInsert acc = acc ++ l := by
  intro l
  induction l with
  | nil => intro acc _ _; simp
  | cons s rest ih =>
    intro acc hfresh hnodup
    rw [List.map_cons, List.nodup_cons] at hnodup
    obtain ⟨hsid, hrest⟩ := hnodup
    rw [List.foldl_cons]
    have hnot : ¬ ∃ t ∈ acc, t.id = s.id := by
      rintro ⟨t, ht, heq⟩
      exact hfresh s (List.mem_cons_self _ _) t ht heq
    have hstep : mapInsert acc s = acc ++ [s] := by
      unfold mapInsert
      rw [if_neg hnot]
    rw [hstep, ih (acc ++ [s]) (by
      intro u hu t ht
      rcases List.mem_append.mp ht with h1 | h2
      · exact hfresh u (List.mem_cons_of_mem _ hu) t h1
      · have ht2 : t = s := by simpa using h2
        subst ht2
        intro hc
        exact hsid (List.mem_map.mpr ⟨u, hu, hc.symm⟩)) hrest]
    simp

/-- Merging nothing into a duplicate-free store slot is the identity. -/
theorem appendAndDedupe_nil_right (existing : List Suggestion)
    (hids : (existing.map Suggestion.id).Nodup) :
    appendAndDedupe existing [] = existing := by
  unfold appendAndDedupe
  rw [List.foldl_nil,
    foldl_mapInsert_append existing [] (by intro u _ t ht; simp at ht) hids]
  simp

/-- C8: when the external analyzer call fails (the thrown error reaches
the `catch`), `analyzeWithLLM` yields zero suggestions, and feeding that
empty result through the pass's resolve/filter/merge pipeline leaves the
store's existing suggestions for the file untouched. -/
theorem c8_analyzer_failure_nonfatal
    (parseResp : String → List Suggestion) (apiKey diff e : String)
    (docLines : List String) (token : String) (existing : List Suggestion)
    (hids : (existing.map Suggestion.id).Nodup) :
    analyzeWithLLM parseResp apiKey diff (Except.error e) = [] ∧
      mergeStepAnalyzeUri existing
        (postLLMPipeline docLines token diff
          (analyzeWithLLM parseResp apiKey diff (Except.error e))) = existing := by
  have h1 : analyzeWithLLM parseResp apiKey diff (Except.error e) = [] := by
    unfold analyzeWithLLM
    split_ifs <;> rfl
  refine ⟨h1, ?_⟩
  rw [h1]
  have h2 : postLLMPipeline docLines token diff [] = [] := rfl
  rw [h2]
  unfold mergeStepAnalyzeUri
  rw [List.filter_nil]
  exact appendAndDedupe_nil_right existing hids

/-- Witness for C8 on a failed call over a concrete store slot. -/
theorem c8_analyzer_failure_nonfatal_witness :
    ((([{ id := "a", line := 1 }, { id := "b", line := 2 }] : List Suggestion).map
        Suggestion.id).Nodup) ∧
      analyzeWithLLM (fun _ => [{ id := "q", line := 0 }]) "key"
        "@@ -1,1 +1,1 @@\n+x" (Except.error "HTTP 500") = [] ∧
      mergeStepAnalyzeUri [{ id := "a", line := 1 }, { id := "b", line := 2 }]
        (postLLMPipeline ["x"] "//" "@@ -1,1 +1,1 @@\n+x"
          (analyzeWithLLM (fun _ => [{ id := "q", line := 0 }]) "key"
            "@@ -1,1 +1,1 @@\n+x" (Except.error "HTTP 500"))) =
        [{ id := "a", line := 1 }, { id := "b", line := 2 }] :=
  ⟨by decide,
    (c8_analyzer_failure_nonfatal (fun _ => [{ id := "q", line := 0 }]) "key"
      "@@ -1,1 +1,1 @@\n+x" "HTTP 500" ["x"] "//"
      [{ id := "a", line := 1 }, { id := "b", line := 2 }] (by decide)).1,
    (c8_analyzer_failure_nonfatal (fun _ => [{ id := "q", line := 0 }]) "key"
      "@@ -1,1 +1,1 @@\n+x" "HTTP 500" ["x"] "//"
      [{ id := "a", line := 1 }, { id := "b", line := 2 }] (by decide)).2⟩

/-- C5: for a suggestion with a non-empty anchor, if some document line's
trimmed text equals the marker-stripped, trimmed anchor, the resolver
moves the suggestion to a candidate index minimizing the absolute
distance to the stored line (ties broken toward the lowest index); in
particular, when exactly one line matches — by trimmed equality or
substring containment — that line's index is returned regardless of how
wrong the stored line was. -/
theorem c5_anchor_resolution (docLines : List String) (s : Suggestion) (a : String)
    (hanchor : s.anchor = some a) (hne : jsTrim a ≠ "")
    (hhit : ∃ i, i < docLines.length ∧
      jsTrim (docLines.getD i "") = jsTrim (stripLeadMarker a)) :
    (∃ c ∈ candidatesFor docLines (jsTrim (stripLeadMarker a)),
      (resolveOne docLines s).line = (c : Int) ∧
      (∀ x ∈ candidatesFor docLines (jsTrim (stripLeadMarker a)),
        ((c : Int) - s.line).natAbs ≤ ((x : Int) - s.line).natAbs) ∧
      (∀ x ∈ candidatesFor docLines (jsTrim (stripLeadMarker a)),
        ((x : Int) - s.line).natAbs = ((c : Int) - s.line).natAbs → c ≤ x)) ∧
    (∀ j, candidatesFor docLines (jsTrim (stripLeadMarker a)) = [j] →
      (resolveOne docLines s).line = (j : Int)) := by
  obtain ⟨i, hi, hieq⟩ := hhit
  have hmem : i ∈ candidatesFor docLines (jsTrim (stripLeadMarker a)) := by
    unfold candidatesFor
    refine List.mem_filter.mpr ⟨List.mem_range.mpr hi, ?_⟩
    have hieq' : jsTrim (docLines[i]?.getD "") = jsTrim (stripLeadMarker a) := by
      rw [← List.getD_eq_getElem?_getD]
      exact hieq
    simp [hieq']
  have hnonnil : candidatesFor docLines (jsTrim (stripLeadMarker a)) ≠ [] := by
    intro hcon
    rw [hcon] at hmem
    simp at hmem
  obtain ⟨c0, t, hct⟩ := List.exists_cons_of_ne_nil hnonnil
  have hcc : closerCandidate s.line c0 c0 = c0 := by
    unfold closerCandidate; simp
  have hres : (resolveOne docLines s).line =
      ((t.foldl (closerCandidate s.line) c0 : Nat) : Int) := by
    simp only [resolveOne, hanchor]
    rw [if_neg hne, hct]
    simp only [List.foldl_cons, hcc]
  have hpw : (c0 :: t).Pairwise (· < ·) := by
    rw [← hct]
    exact candidatesFor_pairwise docLines (jsTrim (stripLeadMarker a))
  refine ⟨⟨t.foldl (closerCandidate s.line) c0, ?_, hres, ?_, ?_⟩, ?_⟩
  · rw [hct]
    exact closer_foldl_mem s.line t c0
  · intro x hx
    rw [hct] at hx
    exact closer_foldl_min s.line t c0 x hx
  · intro x hx heq
    rw [hct] at hx
    exact closer_foldl_earliest s.line t c0 hpw x hx heq
  · intro j hj
    rw [hct] at hj
    obtain ⟨hc0, ht⟩ : c0 = j ∧ t = [] := by
      constructor <;> [exact (List.cons.injEq .. ▸ hj).1 ; exact (List.cons.injEq .. ▸ hj).2]
    subst hc0
    subst ht
    simpa using hres

/-- Witness for C5: a unique anchor match relocates the suggestion to
that line even though the stored line 10 is far outside the document. -/
theorem c5_anchor_resolution_witness :
    (resolveOne ["a", "x = 1", "b"]
        { id := "s1", line := 10, anchor := some "+x = 1" }).line = (1 : Int) :=
  (c5_anchor_resolution ["a", "x = 1", "b"]
      { id := "s1", line := 10, anchor := some "+x = 1" } "+x = 1" rfl (by decide)
      ⟨1, by decide, by decide⟩).2 1 (by decide)

/-- Unfolding of `storeUpdate` over a cons cell. -/
theorem storeUpdate_cons (x : Suggestion) (rest : List Suggestion) (s : Suggestion) :
    storeUpdate (x :: rest) s =
      if x.id = s.id then s :: rest else x :: storeUpdate rest s := by
  by_cases h : x.id = s.id
  · rw [if_pos h]
    unfold storeUpdate
    rw [List.findIdx?_cons]
    simp [h]
  · rw [if_neg h]
    unfold storeUpdate
    rw [List.findIdx?_cons, List.findIdx?_succ]
    have hb : (x.id == s.id) = false := by simpa using h
    simp only [hb, Bool.false_eq_true, if_false]
    cases hf : List.findIdx? (fun t => t.id == s.id) rest with
    | none => simp [hf]
    | some i => simp [hf, List.set_cons_succ]

/-- Replacing a record in place by one with the same id keeps the id
list unchanged. -/
theorem map_id_set (l : List Suggestion) :
    ∀ (i : Nat) (t u : Suggestion), l.get? i = some t → t.id = u.id →
      (l.set i u).map Suggestion.id = l.map Suggestion.id := by
  induction l with
  | nil => intro i t u h _; simp at h
  | cons x rest ih =>
    intro i t u h heq
    cases i with
    | zero =>
      rw [List.set_cons_zero]
      have hx : x = t := by simpa using h
      subst hx
      simp [List.map_cons, heq]
    | succ n =>
      rw [List.set_cons_succ]
      have h' : rest.get? n = some t := by simpa using h
      simp [List.map_cons, ih n t u h' heq]

/-- C9: on a store slot holding at most one record per id,
`SuggestionStore.update` preserves that invariant: a record with the
incoming id is replaced in place without changing the collection's
length, a fresh id is appended, and in both cases the result again holds
at most one record per id. -/
theorem c9_store_update_merge_by_id (items : List Suggestion) (s : Suggestion)
    (hids : (items.map Suggestion.id).Nodup) :
    ((storeUpdate items s).map Suggestion.id).Nodup ∧
      ((∃ t ∈ items, t.id = s.id) →
        (storeUpdate items s).length = items.length ∧
        ∃ i t, items.get? i = some t ∧ t.id = s.id ∧
          storeUpdate items s = items.set i s) ∧
      ((∀ t ∈ items, t.id ≠ s.id) → storeUpdate items s = items ++ [s]) := by
  revert hids
  induction items with
  | nil =>
    intro _
    refine ⟨by simp [storeUpdate], ?_, ?_⟩
    · rintro ⟨t, ht, _⟩; simp at ht
    · intro _; rfl
  | cons x rest ih =>
    intro hids
    rw [List.map_cons, List.nodup_cons] at hids
    obtain ⟨hxnot, hrest⟩ := hids
    have IH := ih hrest
    rw [storeUpdate_cons]
    by_cases hx : x.id = s.id
    · rw [if_pos hx]
      refine ⟨?_, ?_, ?_⟩
      · rw [List.map_cons, List.nodup_cons]
        exact ⟨by rw [← hx]; exact hxnot, hrest⟩
      · intro _
        exact ⟨by simp, 0, x, by simp, hx, by rw [List.set_cons_zero]⟩
      · intro hall
        exact absurd hx (hall x (List.mem_cons_self _ _))
    · rw [if_neg hx]
      refine ⟨?_, ?_, ?_⟩
      · rw [List.map_cons, List.nodup_cons]
        refine ⟨?_, IH.1⟩
        by_cases hex : ∃ t ∈ rest, t.id = s.id
        · obtain ⟨_, i, t, hget, htid, hset⟩ := IH.2.1 hex
          rw [hset, map_id_set rest i t s hget htid]
          exact hxnot
        · push_neg at hex
          rw [IH.2.2 hex, List.map_append]
          intro hc
          rcases List.mem_append.mp hc with h1 | h2
          · exact hxnot h1
          · exact hx (by simpa using h2)
      · rintro ⟨t, ht, htid⟩
        rcases List.mem_cons.mp ht with heq | ht'
        · subst heq
          exact absurd htid hx
        · obtain ⟨hlen, i, u, hget, huid, hset⟩ := IH.2.1 ⟨t, ht', htid⟩
          refine ⟨by simp [hlen], i + 1, u, by simpa using hget, huid, ?_⟩
          rw [List.set_cons_succ, hset]
      · intro hall
        rw [IH.2.2 (fun t ht => hall t (List.mem_cons_of_mem _ ht))]
        rfl

/-- Witness for C9: replacement keeps the length, a fresh id appends. -/
theorem c9_store_update_merge_by_id_witness :
    ((([{ id := "a", line := 1 }, { id := "b", line := 2 }] : List Suggestion).map
        Suggestion.id).Nodup) ∧
      (((storeUpdate [{ id := "a", line := 1 }, { id := "b", line := 2 }]
          { id := "b", line := 9 }).map Suggestion.id).Nodup ∧
        ((∃ t ∈ ([{ id := "a", line := 1 }, { id := "b", line := 2 }] : List Suggestion),
            t.id = ({ id := "b", line := 9 } : Suggestion).id) →
          (storeUpdate [{ id := "a", line := 1 }, { id := "b", line := 2 }]
            { id := "b", line := 9 }).length =
            ([{ id := "a", line := 1 }, { id := "b", line := 2 }] : List Suggestion).length ∧
          ∃ i t, ([{ id := "a", line := 1 }, { id := "b", line := 2 }] :
              List Suggestion).get? i = some t ∧
            t.id = ({ id := "b", line := 9 } : Suggestion).id ∧
            storeUpdate [{ id := "a", line := 1 }, { id := "b", line := 2 }]
              { id := "b", line := 9 } =
              ([{ id := "a", line := 1 }, { id := "b", line := 2 }] :
                List Suggestion).set i { id := "b", line := 9 }) ∧
        ((∀ t ∈ ([{ id := "a", line := 1 }, { id := "b", line := 2 }] : List Suggestion),
            t.id ≠ ({ id := "b", line := 9 } : Suggestion).id) →
          storeUpdate [{ id := "a", line := 1 }, { id := "b", line := 2 }]
            { id := "b", line := 9 } =
            [{ id := "a", line := 1 }, { id := "b", line := 2 }] ++
              [{ id := "b", line := 9 }])) :=
  ⟨by decide,
    c9_store_update_merge_by_id [{ id := "a", line := 1 }, { id := "b", line := 2 }]
      { id := "b", line := 9 } (by decide)⟩

/-- Witness for C10 on a concrete merge. -/
theorem c10_merge_discards_occupied_lines_witness :
    ({ id := "c", line := 7 } : Suggestion) ∈
        mergeStepAnalyzeUri [{ id := "a", line := 4 }]
          [{ id := "b", line := 4 }, { id := "c", line := 7 }] ∧
      (({ id := "c", line := 7 } : Suggestion) ∈
          ([{ id := "a", line := 4 }] : List Suggestion) ∨
        (({ id := "c", line := 7 } : Suggestion) ∈
            ([{ id := "b", line := 4 }, { id := "c", line := 7 }] : List Suggestion) ∧
          ({ id := "c", line := 7 } : Suggestion).line ∉
            activeLines [{ id := "a", line := 4 }])) :=
  ⟨by decide,
    c10_merge_discards_occupied_lines [{ id := "a", line := 4 }]
      [{ id := "b", line := 4 }, { id := "c", line := 7 }]
      { id := "c", line := 7 } (by decide)⟩

end WhyComment
